import Mathlib

/-!
# CP-Gen: the test-case generator `generator_example.cpp`

A shallow embedding of `random`, `generate_test`, `run_standard_solution` and `main`,
followed by the properties of the generator that the specification states.

The program talks to three outside parties: the Mersenne twister `rnd`, the C library
(`fopen`, `fprintf`, `std::system`, the console) and the file system.  They are an
environment `Env` (what the outside answers) and a state `Sys` (what the program has done
so far, as a trace of events).
-/

namespace CPGen

/-! ## Machine arithmetic -/

/-- The type `std::mt19937::result_type`, which is `uint_fast32_t`: an unsigned type of
32 bits (`unsigned int`) or of 64 bits (`unsigned long`, as with glibc on x86-64).  The
generator's outputs are below `2^32` in both cases; the width decides how the `int`
operands of `%` and `+` in `random` are converted. -/
inductive ResultType where
  | u32
  | u64
deriving DecidableEq

/-- Number of values of the unsigned type: `2^32` or `2^64`. -/
def ResultType.modulus : ResultType → Nat
  | .u32 => 4294967296
  | .u64 => 18446744073709551616

/-- Least value of a 32-bit `int`. -/
def INT_MIN : Int := -2147483648

/-- Greatest value of a 32-bit `int`. -/
def INT_MAX : Int := 2147483647

/-- The `int` that holds the mathematical value `x`: reduction modulo `2^32` into
`[INT_MIN, INT_MAX]` (two's complement; the identity when `x` is representable). -/
def to_int (x : Int) : Int := (x + 2147483648) % 4294967296 - 2147483648

/-- Conversion of an `int` to the unsigned type `T`: reduction modulo `2^32` or `2^64`. -/
def to_unsigned (T : ResultType) (x : Int) : Nat := (x % (T.modulus : Int)).toNat

/-- The expression `rnd() % (r - l + 1) + l` of `random`, for the raw generator output
`raw`.  `r - l + 1` is computed in `int`, converted to the unsigned type for `%`; `l` is
converted to the unsigned type for `+`; the sum is converted back to `int` by `return`.
`none` is the division by zero. -/
def random_value (T : ResultType) (raw : Nat) (l r : Int) : Option Int :=
  let m := to_unsigned T (to_int (to_int (r - l) + 1))
  if m = 0 then none
  else some (to_int (((raw % m + to_unsigned T l) % T.modulus : Nat) : Int))

/-! ## The outside world -/

/-- What the program does to the outside, in order. -/
inductive Event where
  | call_generate_test (filename : String) (n value_range : Int)
  | fopen (path : String)
  | perror (msg : String)
  | fprintf (path text : String)
  | fclose (path : String)
  | system (cmd : String)
  | cout (text : String)
  | cerr (text : String)
  | create_directory (path : String)
deriving DecidableEq

/-- What the outside answers: the width of the generator's result type, the raw outputs
of `rnd` (the `k`-th call returns `raws k` reduced below `2^32`), the status that the
`k`-th call of `std::system` returns, and which paths `fopen(path, "w")` can open. -/
structure Env where
  T : ResultType
  raws : Nat → Nat
  status : Nat → Int
  can_open : String → Bool

/-- State of a run: how many raw outputs were drawn, how many commands were run, the
arguments `(l, r)` of every call of `random` so far, and the events so far. -/
structure Sys where
  drawn : Nat
  spawned : Nat
  calls : List (Int × Int)
  trace : List Event

/-- The state before `main` starts. -/
def Sys.init : Sys := ⟨0, 0, [], []⟩

/-- Append one event to the trace. -/
def Sys.emit (s : Sys) (e : Event) : Sys := { s with trace := s.trace ++ [e] }

/-- How a piece of the program ends: it returns `a`, or the process is ended by `exit`, or
it runs into undefined behaviour (a division by zero, an element access out of bounds). -/
inductive Res (α : Type) where
  | ok (a : α) (s : Sys)
  | exited (code : Int) (s : Sys)
  | crashed (s : Sys)

/-- Sequencing: continue with `f` when the first part returned. -/
def Res.bind {α β : Type} (x : Res α) (f : α → Sys → Res β) : Res β :=
  match x with
  | .ok a s => f a s
  | .exited c s => .exited c s
  | .crashed s => .crashed s

/-- The state in which a piece of the program ended. -/
def Res.sys {α : Type} : Res α → Sys
  | .ok _ s => s
  | .exited _ s => s
  | .crashed s => s

/-! ## The program -/

/-- One call `rnd()`. -/
def rnd (env : Env) (s : Sys) : Nat × Sys :=
  (env.raws s.drawn % 4294967296, { s with drawn := s.drawn + 1 })

/-- The function `random`: `return rnd() % (r - l + 1) + l;`. -/
def random (env : Env) (l r : Int) (s : Sys) : Res Int :=
  let (raw, s) := rnd env s
  let s := { s with calls := s.calls ++ [(l, r)] }
  match random_value env.T raw l r with
  | none => .crashed s
  | some v => .ok v s

/-- The locals of `generate_test` that the loop changes.  `inserted` and `queries` are
`int` counters that never exceed the loop bound `n`. -/
structure Locals where
  operations : List String
  inserted : Nat
  queries : Nat

/-- The `else` branch of the loop body: push `INSERT x`. -/
def push_insert (env : Env) (value_range : Int) (v : Locals) (s : Sys) : Res Locals :=
  (random env (to_int (-value_range)) value_range s).bind fun x s =>
    .ok { v with operations := v.operations ++ ["INSERT " ++ toString x],
                 inserted := v.inserted + 1 } s

/-- The `then` branch of the loop body: push `QUERY`. -/
def push_query (v : Locals) (s : Sys) : Res Locals :=
  .ok { v with operations := v.operations ++ ["QUERY"], queries := v.queries + 1 } s

/-- One pass of the loop of `generate_test`.  `&&` does not call `random(0, 1)` when
`inserted > 0` is false. -/
def loop_body (env : Env) (value_range : Int) (v : Locals) (s : Sys) : Res Locals :=
  if v.inserted > 0 then
    (random env 0 1 s).bind fun c s =>
      if c ≠ 0 then push_query v s else push_insert env value_range v s
  else push_insert env value_range v s

/-- The loop `for (int i = 0; i < n; ++i)`, by the number of passes left. -/
def loop (env : Env) (value_range : Int) : Nat → Locals → Sys → Res Locals
  | 0, v, s => .ok v s
  | k + 1, v, s => (loop_body env value_range v s).bind (loop env value_range k)

/-- The step `if (queries == 0) operations[random(0, n - 1)] = "QUERY";`.  The index is
converted to `size_t`; an index outside the vector is undefined behaviour. -/
def ensure_query (env : Env) (n : Int) (v : Locals) (s : Sys) : Res (List String) :=
  if v.queries = 0 then
    (random env 0 (to_int (n - 1)) s).bind fun k s =>
      if 0 ≤ k ∧ k.toNat < v.operations.length then
        .ok (v.operations.set k.toNat "QUERY") s
      else .crashed s
  else .ok v.operations s

/-- The final loop `for (const auto& op : operations) fprintf(f, "%s\n", op.c_str());`. -/
def write_operations (in_file : String) (ops : List String) (s : Sys) : Sys :=
  ops.foldl (fun s op => s.emit (.fprintf in_file (op ++ "\n"))) s

/-- The function `generate_test`.  The first event records the call and its
arguments. -/
def generate_test (env : Env) (filename : String) (n value_range : Int) (s : Sys) :
    Res Unit :=
  let s := s.emit (.call_generate_test filename n value_range)
  let in_file := filename ++ ".in"
  if env.can_open in_file = false then
    .exited 1 (s.emit (.perror ("❌ Failed to open " ++ in_file)))
  else
    let s := (s.emit (.fopen in_file)).emit (.fprintf in_file (toString n ++ "\n"))
    (loop env value_range n.toNat ⟨[], 0, 0⟩ s).bind fun v s =>
      (ensure_query env n v s).bind fun ops s =>
        .ok () ((write_operations in_file ops s).emit (.fclose in_file))

/-- One call `std::system(cmd)`. -/
def system (env : Env) (cmd : String) (s : Sys) : Res Int :=
  .ok (env.status s.spawned) { (s.emit (.system cmd)) with spawned := s.spawned + 1 }

/-- The function `run_standard_solution`. -/
def run_standard_solution (env : Env) (binary in_file out_file : String) (s : Sys) :
    Res Bool :=
  let cmd := "./" ++ binary ++ " < " ++ in_file ++ " > " ++ out_file
  (system env cmd s).bind fun st s => .ok (st == 0) s

/-- The vector `subtasks` of `main`. -/
def subtasks : List (String × Int × Int) :=
  [("subtask1", 2, 100),
   ("subtask2", 10, 1000),
   ("subtask3", 100, 10000),
   ("subtask4", 1000, 1000000),
   ("subtask5", 10000, 1000000000),
   ("subtask6", 50000, 1000000000),
   ("subtask7", 100000, 1000000000)]

/-- What both loops of `main` do once the name and the sizes are fixed: generate the
input, run the solution on it, report. -/
def generate_and_run (env : Env) (solution_binary name : String) (n value_range : Int)
    (s : Sys) : Res Unit :=
  (generate_test env name n value_range s).bind fun _ s =>
    (run_standard_solution env solution_binary (name ++ ".in") (name ++ ".out") s).bind
      fun good s =>
        if good then .ok () (s.emit (.cout ("✅ " ++ name ++ ".out generated\n")))
        else .ok () (s.emit (.cerr ("❌ Runtime error on: " ++ name ++ "\n")))

/-- The loop `for (const auto& [name, n, range] : subtasks)`. -/
def subtask_loop (env : Env) (solution_binary : String) :
    List (String × Int × Int) → Sys → Res Unit
  | [], s => .ok () s
  | (name, n, range) :: rest, s =>
    (generate_and_run env solution_binary name n range s).bind fun _ s =>
      subtask_loop env solution_binary rest s

/-- The loop `for (int i = 0; i < 100; ++i)`, by the number of passes left and `i`. -/
def case_loop (env : Env) (solution_binary : String) : Nat → Nat → Sys → Res Unit
  | 0, _, s => .ok () s
  | k + 1, i, s =>
    let base := "test_cases/test_case_" ++ toString i
    (random env 1 1000 s).bind fun n s =>
      (random env 1 1000000 s).bind fun value_range s =>
        (generate_and_run env solution_binary base n value_range s).bind fun _ s =>
          case_loop env solution_binary k (i + 1) s

/-- The function `main`; the value returned is the exit status. -/
def main (env : Env) (s : Sys) : Res Int :=
  let solution_source := "gpt4o.cpp"
  let solution_binary := "standard_solution"
  let compile_cmd := "g++ -O2 -std=c++17 " ++ solution_source ++ " -o " ++ solution_binary
  let s := s.emit (.cout "🔧 Compiling standard solution...\n")
  (system env compile_cmd s).bind fun st s =>
    if st ≠ 0 then
      .ok 1 (s.emit (.cerr ("❌ Compilation failed for " ++ solution_source ++ "\n")))
    else
      let s := s.emit (.cout "✅ Compilation complete.\n")
      (subtask_loop env solution_binary subtasks s).bind fun _ s =>
        let s := s.emit (.create_directory "test_cases")
        (case_loop env solution_binary 100 0 s).bind fun _ s =>
          .ok 0 (s.emit (.cout ("\n🎉 All .in and .out files generated using "
            ++ solution_source ++ ".\n")))

/-! ## Reading the trace -/

/-- The content of the file `path` after the events: `fopen(path, "w")` empties it, each
`fprintf` to it appends. -/
def file_text (path : String) (trace : List Event) : String :=
  trace.foldl (fun acc e =>
    match e with
    | .fopen p => if p = path then "" else acc
    | .fprintf p t => if p = path then acc ++ t else acc
    | _ => acc) ""

/-! ## Vocabulary of the properties -/

/-- After a call of `random` that returns. -/
def Sys.after_random (s : Sys) (l r : Int) : Sys :=
  { s with drawn := s.drawn + 1, calls := s.calls ++ [(l, r)] }

/-- The values that `random(-value_range, value_range)` can return. -/
def drawn_from (env : Env) (value_range x : Int) : Prop :=
  ∃ raw : Nat, raw < 4294967296 ∧
    random_value env.T raw (to_int (-value_range)) value_range = some x

/-- A line `INSERT x` whose value is one that `random(-value_range, value_range)` can
return. -/
def insert_line (env : Env) (value_range : Int) (op : String) : Prop :=
  ∃ x, drawn_from env value_range x ∧ op = "INSERT " ++ toString x

/-- What holds of the locals of `generate_test` before and after each pass of the loop. -/
structure Inv (env : Env) (vr : Int) (v : Locals) : Prop where
  len : v.operations.length = v.inserted + v.queries
  shape : ∀ op ∈ v.operations, op = "QUERY" ∨ insert_line env vr op
  count : v.operations.count "QUERY" = v.queries
  first : ∀ op rest, v.operations = op :: rest → insert_line env vr op
  ins : v.inserted = 0 → v.operations = []

/-- What the loop of `generate_test` changes in the state: only the generator, by calls
of the coin and of `random(-value_range, value_range)`. -/
structure Frame (vr : Int) (s s' : Sys) : Prop where
  trace : s'.trace = s.trace
  spawned : s'.spawned = s.spawned
  calls : ∃ extra, s'.calls = s.calls ++ extra ∧
    ∀ c ∈ extra, c = (0, 1) ∨ c = (to_int (-vr), vr)

/-- What holds of the operations that `generate_test` hands to the final loop. -/
structure Generated (env : Env) (n vr : Int) (ops : List String) : Prop where
  length : ops.length = n.toNat
  has_query : "QUERY" ∈ ops
  shape : ∀ op ∈ ops, op = "QUERY" ∨ insert_line env vr op
  first : (∃ op rest, ops = op :: rest ∧ insert_line env vr op) ∨
    (∃ rest, ops = "QUERY" :: rest ∧ "QUERY" ∉ rest)

/-- The events of one call of `generate_test` that returns. -/
def generate_events (filename : String) (n value_range : Int) (ops : List String) :
    List Event :=
  [.call_generate_test filename n value_range, .fopen (filename ++ ".in"),
    .fprintf (filename ++ ".in") (toString n ++ "\n")]
  ++ ops.map (fun op => Event.fprintf (filename ++ ".in") (op ++ "\n"))
  ++ [.fclose (filename ++ ".in")]

/-- Reading a numeral: the value of a list of digits, most significant first. -/
def digits_value (cs : List Char) : Nat :=
  cs.foldl (fun a c => 10 * a + (c.toNat - 48)) 0

/-- The lines of a text: the pieces that end at each line break, and the rest after the
last line break when it is not empty. -/
def split_lines : List Char → List (List Char)
  | [] => []
  | c :: cs =>
    if c = '\n' then [] :: split_lines cs
    else
      match split_lines cs with
      | [] => [[c]]
      | l :: ls => (c :: l) :: ls

/-- The lines of a file, without their line breaks. -/
def file_lines (text : String) : List String := (split_lines text.data).map String.mk

/-- The text made of the given lines, each followed by a line break. -/
def lines_text (lines : List String) : String := String.join (lines.map (· ++ "\n"))

/-- The environment of the examples: the raw outputs of the list (then zeros), the
compilation succeeding, the solution failing each time, every file opening. -/
def example_env (T : ResultType) (raws : List Nat) : Env :=
  ⟨T, fun k => raws.getD k 0, fun k => if k = 0 then 0 else 1, fun _ => true⟩

/-- Number of raw outputs below `2^32` for which `random(l, r)` returns `v`. -/
def hits (T : ResultType) (l r v : Int) : Nat :=
  Nat.count (fun raw => random_value T raw l r = some v) 4294967296

/-- The calls of `generate_test` and of `std::system` among the events. -/
def is_step : Event → Bool
  | .call_generate_test _ _ _ => true
  | .system _ => true
  | _ => false

/-- The calls of `generate_test` and of `std::system` of a trace, in order. -/
def steps (trace : List Event) : List Event := trace.filter is_step

/-- The names with which `generate_test` was called, in order. -/
def generated_names (trace : List Event) : List String :=
  trace.filterMap fun e =>
    match e with
    | .call_generate_test filename _ _ => some filename
    | _ => none

/-- One call of `generate_test` followed by one run of the solution on `<name>.in`
writing `<name>.out`. -/
def run_events (name : String) (n value_range : Int) : List Event :=
  [.call_generate_test name n value_range,
   .system ("./" ++ "standard_solution" ++ " < " ++ (name ++ ".in") ++ " > "
     ++ (name ++ ".out"))]

/-- The steps of the first loop of `main`. -/
def subtask_steps : List (String × Int × Int) → List Event
  | [] => []
  | (name, n, value_range) :: rest => run_events name n value_range ++ subtask_steps rest

/-- Name of the `i`-th random case. -/
def case_name (i : Nat) : String := "test_cases/test_case_" ++ toString i

/-- The steps of the second loop of `main` from pass `i` on, for the sizes drawn. -/
def case_steps : Nat → List (Int × Int) → List Event
  | _, [] => []
  | i, (n, value_range) :: rest =>
    run_events (case_name i) n value_range ++ case_steps (i + 1) rest

/-- The names of the 107 inputs, in the order of `main`. -/
def batch_names : List String := subtasks.map (·.1) ++ (List.range 100).map case_name

/-- The calls `random(l, r)` that a run of `main` makes: the coin, the two sizes of a
random case, the value of an `INSERT` and the index of the correction step. -/
def main_call (c : Int × Int) : Prop :=
  c = (0, 1) ∨ c = (1, 1000) ∨ c = (1, 1000000) ∨
    (∃ vr : Int, 1 ≤ vr ∧ vr ≤ 1000000000 ∧ c = (-vr, vr)) ∨
    (∃ n : Int, 1 ≤ n ∧ n ≤ 100000 ∧ c = (0, n - 1))

/-- A call `random(l, r)` whose `r - l + 1` is computed without overflow and is a
positive `int`. -/
def safe_call (c : Int × Int) : Prop :=
  INT_MIN ≤ c.1 ∧ c.2 ≤ INT_MAX ∧ 0 ≤ c.2 - c.1 ∧ 1 ≤ c.2 - c.1 + 1 ∧
    c.2 - c.1 + 1 ≤ INT_MAX ∧ c.2 - c.1 + 1 ≤ 2000000001

/-- The sizes with which `main` calls `generate_test`. -/
def main_sizes (n value_range : Int) : Prop :=
  1 ≤ n ∧ n ≤ 100000 ∧ 1 ≤ value_range ∧ value_range ≤ 1000000000

/-- A state in which every call of `random` and of `generate_test` so far is one of
those of `main`. -/
def Safe (s : Sys) : Prop :=
  (∀ c ∈ s.calls, main_call c) ∧
    ∀ f n vr, Event.call_generate_test f n vr ∈ s.trace → main_sizes n vr

/-- A piece of the program that ended without undefined behaviour, in a safe state. -/
def SafeRes {α : Type} : Res α → Prop
  | .ok _ s => Safe s
  | .exited _ s => Safe s
  | .crashed _ => False

/-! ## Properties -/

theorem to_int_def (x : Int) : to_int x = (x + 2147483648) % 4294967296 - 2147483648 := rfl

theorem to_unsigned_u32 (x : Int) : to_unsigned .u32 x = (x % 4294967296).toNat := rfl

theorem to_unsigned_u64 (x : Int) :
    to_unsigned .u64 x = (x % 18446744073709551616).toNat := rfl

theorem modulus_u32 : ResultType.u32.modulus = 4294967296 := rfl

theorem modulus_u64 : ResultType.u64.modulus = 18446744073709551616 := rfl

theorem to_int_of_range {x : Int} (h1 : INT_MIN ≤ x) (h2 : x ≤ INT_MAX) : to_int x = x := by
  unfold INT_MIN at h1; unfold INT_MAX at h2; rw [to_int_def]; omega

theorem to_int_range (x : Int) : INT_MIN ≤ to_int x ∧ to_int x ≤ INT_MAX := by
  unfold INT_MIN INT_MAX; rw [to_int_def]; omega

theorem random_value_def (T : ResultType) (raw : Nat) (l r : Int) :
    random_value T raw l r =
      if to_unsigned T (to_int (to_int (r - l) + 1)) = 0 then none
      else some (to_int (((raw % to_unsigned T (to_int (to_int (r - l) + 1))
        + to_unsigned T l) % T.modulus : Nat) : Int)) := rfl

/-- Without overflow in `r - l + 1`, `random` computes `l + raw mod (r - l + 1)`. -/
theorem random_value_of_safe (T : ResultType) (raw : Nat) (l r : Int) (m : Nat)
    (hl : INT_MIN ≤ l) (hr : r ≤ INT_MAX) (hm : (m : Int) = r - l + 1) (h1 : 1 ≤ m)
    (h2 : (m : Int) ≤ INT_MAX) (hraw : raw < 4294967296) :
    random_value T raw l r = some (l + ((raw % m : Nat) : Int)) := by
  have hk : raw % m < m := Nat.mod_lt _ (by omega)
  have hk2 : raw % m ≤ raw := Nat.mod_le _ _
  unfold INT_MIN at hl; unfold INT_MAX at hr h2
  have e1 : to_int (to_int (r - l) + 1) = (m : Int) := by
    rw [to_int_def, to_int_def]; omega
  cases T
  · have e2 : to_unsigned .u32 (m : Int) = m := by
      rw [to_unsigned_u32]; omega
    rw [random_value_def, e1, e2, if_neg (by omega)]
    generalize raw % m = k at *
    rw [to_unsigned_u32, modulus_u32, to_int_def]
    refine congrArg some ?_
    push_cast
    omega
  · have e2 : to_unsigned .u64 (m : Int) = m := by
      rw [to_unsigned_u64]; omega
    rw [random_value_def, e1, e2, if_neg (by omega)]
    generalize raw % m = k at *
    rw [to_unsigned_u64, modulus_u64, to_int_def]
    refine congrArg some ?_
    push_cast
    omega

theorem random_eq (env : Env) (l r : Int) (s : Sys) :
    random env l r s =
      match random_value env.T (env.raws s.drawn % 4294967296) l r with
      | none => .crashed (s.after_random l r)
      | some v => .ok v (s.after_random l r) := rfl

theorem raw_lt (env : Env) (k : Nat) : env.raws k % 4294967296 < 4294967296 :=
  Nat.mod_lt _ (by decide)

/-- The coin `random(0, 1)` returns the parity of the raw output. -/
theorem random_coin (env : Env) (s : Sys) :
    random env 0 1 s =
      .ok (((env.raws s.drawn % 4294967296 % 2 : Nat) : Int)) (s.after_random 0 1) := by
  rw [random_eq, random_value_of_safe env.T _ 0 1 2 (by decide) (by decide) (by decide)
    (by decide) (by decide) (raw_lt env _)]
  simp

/-- The modulus of `random(-value_range, value_range)` is odd, so never zero. -/
theorem random_sym_modulus (T : ResultType) (vr : Int) :
    to_unsigned T (to_int (to_int (vr - to_int (-vr)) + 1)) ≠ 0 := by
  cases T
  · rw [to_unsigned_u32, to_int_def, to_int_def, to_int_def]; omega
  · rw [to_unsigned_u64, to_int_def, to_int_def, to_int_def]; omega

theorem random_sym (env : Env) (vr : Int) (s : Sys) :
    ∃ x, drawn_from env vr x ∧
      random env (to_int (-vr)) vr s = .ok x (s.after_random (to_int (-vr)) vr) := by
  have h := random_sym_modulus env.T vr
  cases hv : random_value env.T (env.raws s.drawn % 4294967296) (to_int (-vr)) vr with
  | none =>
    rw [random_value_def] at hv
    rw [if_neg h] at hv
    cases hv
  | some x =>
    refine ⟨x, ⟨_, raw_lt env _, hv⟩, ?_⟩
    rw [random_eq, hv]

theorem insert_ne_query (t : String) : "INSERT " ++ t ≠ "QUERY" := by
  intro h
  have h2 := congrArg String.data h
  rw [String.data_append] at h2
  have e1 : "INSERT ".data = ['I', 'N', 'S', 'E', 'R', 'T', ' '] := rfl
  have e2 : "QUERY".data = ['Q', 'U', 'E', 'R', 'Y'] := rfl
  rw [e1, e2] at h2
  simp at h2

theorem Frame.refl (vr : Int) (s : Sys) : Frame vr s s :=
  ⟨rfl, rfl, [], by simp, by simp⟩

theorem Frame.trans {vr : Int} {s1 s2 s3 : Sys} (h1 : Frame vr s1 s2) (h2 : Frame vr s2 s3) :
    Frame vr s1 s3 := by
  obtain ⟨e1, hc1, hs1⟩ := h1.calls
  obtain ⟨e2, hc2, hs2⟩ := h2.calls
  refine ⟨h2.trace.trans h1.trace, h2.spawned.trans h1.spawned, e1 ++ e2, ?_, ?_⟩
  · rw [hc2, hc1, List.append_assoc]
  · intro c hc
    rcases List.mem_append.1 hc with h | h
    · exact hs1 c h
    · exact hs2 c h

theorem Frame.coin (vr : Int) (s : Sys) : Frame vr s (s.after_random 0 1) :=
  ⟨rfl, rfl, [(0, 1)], rfl, by simp⟩

theorem Frame.sym (vr : Int) (s : Sys) : Frame vr s (s.after_random (to_int (-vr)) vr) :=
  ⟨rfl, rfl, [(to_int (-vr), vr)], rfl, by simp⟩

theorem Inv.init (env : Env) (vr : Int) : Inv env vr ⟨[], 0, 0⟩ :=
  ⟨rfl, by simp, rfl, by simp, by simp⟩

theorem push_insert_spec (env : Env) (vr : Int) (v : Locals) (s : Sys) (hv : Inv env vr v) :
    ∃ v' s', push_insert env vr v s = .ok v' s' ∧ Inv env vr v' ∧
      v'.operations.length = v.operations.length + 1 ∧ Frame vr s s' := by
  obtain ⟨x, hx, hr⟩ := random_sym env vr s
  have hline : insert_line env vr ("INSERT " ++ toString x) := ⟨x, hx, rfl⟩
  refine ⟨_, _, by rw [push_insert, hr]; rfl, ?_, by simp, Frame.sym vr s⟩
  refine ⟨?_, ?_, ?_, ?_, ?_⟩
  · simp [hv.len]; omega
  · intro op hop
    rcases List.mem_append.1 hop with h | h
    · exact hv.shape op h
    · rw [List.mem_singleton.1 h]; exact Or.inr hline
  · have hne : ("INSERT " ++ toString x == "QUERY") = false := by
      simpa using insert_ne_query (toString x)
    simp [List.count_append, hv.count, List.count_cons, hne]
  · intro op rest h
    cases hops : v.operations with
    | nil =>
      have h : v.operations ++ ["INSERT " ++ toString x] = op :: rest := h
      rw [hops] at h
      simp at h
      rw [← h.1]; exact hline
    | cons a l =>
      have h : v.operations ++ ["INSERT " ++ toString x] = op :: rest := h
      rw [hops] at h
      simp at h
      rw [← h.1]; exact hv.first a l hops
  · intro h; simp at h

theorem push_query_spec (env : Env) (vr : Int) (v : Locals) (s : Sys) (hv : Inv env vr v)
    (hpos : v.inserted > 0) :
    ∃ v', push_query v s = .ok v' s ∧ Inv env vr v' ∧
      v'.operations.length = v.operations.length + 1 := by
  refine ⟨_, rfl, ?_, by simp⟩
  refine ⟨?_, ?_, ?_, ?_, ?_⟩
  · simp [hv.len]; omega
  · intro op hop
    rcases List.mem_append.1 hop with h | h
    · exact hv.shape op h
    · exact Or.inl (List.mem_singleton.1 h)
  · simp [List.count_append, hv.count]
  · intro op rest h
    cases hops : v.operations with
    | nil =>
      have := hv.len
      rw [hops] at this
      simp at this
      omega
    | cons a l =>
      have h : v.operations ++ ["QUERY"] = op :: rest := h
      rw [hops] at h
      simp at h
      rw [← h.1]; exact hv.first a l hops
  · intro h
    have : v.inserted = 0 := h
    omega

theorem loop_body_spec (env : Env) (vr : Int) (v : Locals) (s : Sys) (hv : Inv env vr v) :
    ∃ v' s', loop_body env vr v s = .ok v' s' ∧ Inv env vr v' ∧
      v'.operations.length = v.operations.length + 1 ∧ Frame vr s s' := by
  unfold loop_body
  by_cases hpos : v.inserted > 0
  · rw [if_pos hpos, random_coin]
    simp only [Res.bind]
    by_cases hc : ((env.raws s.drawn % 4294967296 % 2 : Nat) : Int) ≠ 0
    · rw [if_pos hc]
      obtain ⟨v', h1, h2, h3⟩ := push_query_spec env vr v (s.after_random 0 1) hv hpos
      exact ⟨v', _, h1, h2, h3, Frame.coin vr s⟩
    · rw [if_neg hc]
      obtain ⟨v', s', h1, h2, h3, h4⟩ := push_insert_spec env vr v (s.after_random 0 1) hv
      exact ⟨v', s', h1, h2, h3, (Frame.coin vr s).trans h4⟩
  · rw [if_neg hpos]
    exact push_insert_spec env vr v s hv

theorem loop_spec (env : Env) (vr : Int) :
    ∀ (k : Nat) (v : Locals) (s : Sys), Inv env vr v →
      ∃ v' s', loop env vr k v s = .ok v' s' ∧ Inv env vr v' ∧
        v'.operations.length = v.operations.length + k ∧ Frame vr s s' := by
  intro k
  induction k with
  | zero =>
    intro v s hv
    exact ⟨v, s, rfl, hv, rfl, Frame.refl vr s⟩
  | succ k ih =>
    intro v s hv
    obtain ⟨v1, s1, h1, hv1, hl1, hf1⟩ := loop_body_spec env vr v s hv
    obtain ⟨v2, s2, h2, hv2, hl2, hf2⟩ := ih v1 s1 hv1
    refine ⟨v2, s2, ?_, hv2, by omega, hf1.trans hf2⟩
    rw [loop, h1]
    exact h2

theorem ensure_query_spec (env : Env) (n vr : Int) (v : Locals) (s : Sys)
    (hn1 : 1 ≤ n) (hn2 : n ≤ INT_MAX) (hv : Inv env vr v)
    (hlen : v.operations.length = n.toNat) :
    ∃ ops s', ensure_query env n v s = .ok ops s' ∧ Generated env n vr ops ∧
      s'.trace = s.trace ∧ s'.spawned = s.spawned ∧
      ∃ extra, s'.calls = s.calls ++ extra ∧ ∀ c ∈ extra, c = (0, n - 1) := by
  unfold ensure_query
  obtain ⟨a, l, hops⟩ : ∃ a l, v.operations = a :: l := by
    cases h : v.operations with
    | nil => rw [h] at hlen; simp at hlen; omega
    | cons a l => exact ⟨a, l, rfl⟩
  have hfirst : insert_line env vr a := hv.first a l hops
  by_cases hq : v.queries = 0
  · rw [if_pos hq]
    have hn2' : n ≤ 2147483647 := hn2
    have e1 : to_int (n - 1) = n - 1 :=
      to_int_of_range (by unfold INT_MIN; omega) (by unfold INT_MAX; omega)
    have hval := random_value_of_safe env.T (env.raws s.drawn % 4294967296) 0 (n - 1)
      n.toNat (by decide) (by unfold INT_MAX; omega) (by omega) (by omega)
      (by unfold INT_MAX; omega) (raw_lt env _)
    rw [e1, random_eq, hval]
    simp only [Res.bind]
    have hk : env.raws s.drawn % 4294967296 % n.toNat < n.toNat := Nat.mod_lt _ (by omega)
    generalize env.raws s.drawn % 4294967296 % n.toNat = k at hk
    have hcond : 0 ≤ (0 + (k : Int)) ∧ (0 + (k : Int)).toNat < v.operations.length := by
      rw [hlen]; omega
    rw [if_pos hcond]
    have hk' : (0 + (k : Int)).toNat = k := by omega
    rw [hk']
    have hnoq : "QUERY" ∉ v.operations := by
      intro hmem
      have := List.count_pos_iff.2 hmem
      rw [hv.count] at this
      omega
    refine ⟨_, _, rfl, ⟨?_, ?_, ?_, ?_⟩, rfl, rfl, [(0, n - 1)], rfl, by simp⟩
    · simp [hlen]
    · rw [hops]
      cases k with
      | zero => simp
      | succ j =>
        have hj : j < l.length := by
          have := hlen; rw [hops] at this; simp at this; omega
        simp only [List.set_cons_succ]
        exact List.mem_cons_of_mem _ (List.mem_iff_getElem.2
          ⟨j, by simpa using hj, by simp⟩)
    · intro op hop
      rcases List.mem_or_eq_of_mem_set hop with h | h
      · exact hv.shape op h
      · exact Or.inl h
    · rw [hops]
      cases k with
      | zero =>
        refine Or.inr ⟨l, rfl, ?_⟩
        intro hmem
        exact hnoq (by rw [hops]; exact List.mem_cons_of_mem _ hmem)
      | succ j => exact Or.inl ⟨a, _, rfl, hfirst⟩
  · rw [if_neg hq]
    refine ⟨_, _, rfl, ⟨hlen, ?_, hv.shape, Or.inl ⟨a, l, hops, hfirst⟩⟩, rfl, rfl, [],
      by simp, by simp⟩
    apply List.count_pos_iff.1
    rw [hv.count]
    omega

theorem write_operations_trace (in_file : String) (ops : List String) (s : Sys) :
    (write_operations in_file ops s).trace
      = s.trace ++ ops.map (fun op => Event.fprintf in_file (op ++ "\n")) ∧
    (write_operations in_file ops s).spawned = s.spawned ∧
    (write_operations in_file ops s).calls = s.calls ∧
    (write_operations in_file ops s).drawn = s.drawn := by
  unfold write_operations
  induction ops generalizing s with
  | nil => simp
  | cons a l ih =>
    simp only [List.foldl_cons, List.map_cons]
    obtain ⟨h1, h2, h3, h4⟩ := ih (s.emit (.fprintf in_file (a ++ "\n")))
    refine ⟨?_, h2, h3, h4⟩
    rw [h1]
    simp [Sys.emit]

/-- For `n ≥ 1` and a file that opens, `generate_test` returns. -/
theorem generate_test_spec (env : Env) (filename : String) (n vr : Int) (s : Sys)
    (hopen : env.can_open (filename ++ ".in") = true) (hn1 : 1 ≤ n) (hn2 : n ≤ INT_MAX) :
    ∃ ops s', generate_test env filename n vr s = .ok () s' ∧ Generated env n vr ops ∧
      s'.trace = s.trace ++ generate_events filename n vr ops ∧
      s'.spawned = s.spawned ∧
      ∃ extra, s'.calls = s.calls ++ extra ∧
        ∀ c ∈ extra, c = (0, 1) ∨ c = (to_int (-vr), vr) ∨ c = (0, n - 1) := by
  unfold generate_test
  simp only [hopen, Bool.true_eq_false, if_false]
  obtain ⟨v, s1, h1, hv, hlen, hf⟩ := loop_spec env vr n.toNat ⟨[], 0, 0⟩
    ((s.emit (.call_generate_test filename n vr)).emit (.fopen (filename ++ ".in")) |>.emit
      (.fprintf (filename ++ ".in") (toString n ++ "\n"))) (Inv.init env vr)
  obtain ⟨ops, s2, h2, hg, ht2, hs2, e2, hc2, he2⟩ := ensure_query_spec env n vr v s1 hn1 hn2 hv
    (by simpa using hlen)
  obtain ⟨e1, hc1, he1⟩ := hf.calls
  obtain ⟨w1, w2, w3, _⟩ := write_operations_trace (filename ++ ".in") ops s2
  refine ⟨ops, (write_operations (filename ++ ".in") ops s2).emit
    (.fclose (filename ++ ".in")), ?_, hg, ?_, ?_, e1 ++ e2, ?_, ?_⟩
  · rw [h1]; simp only [Res.bind]; rw [h2]
  · simp only [Sys.emit, w1, ht2, hf.trace, generate_events]
    simp
  · simp only [Sys.emit, w2, hs2, hf.spawned]
  · simp only [Sys.emit, w3, hc2, hc1]
    simp
  · intro c hc
    rcases List.mem_append.1 hc with h | h
    · rcases he1 c h with h | h
      · exact Or.inl h
      · exact Or.inr (Or.inl h)
    · exact Or.inr (Or.inr (he2 c h))

theorem digitChar_lt_ten {d : Nat} (hd : d < 10) :
    (Nat.digitChar d).isDigit = true ∧ (Nat.digitChar d).toNat - 48 = d := by
  interval_cases d <;> exact ⟨by decide, by decide⟩

theorem toDigitsCore_digits (fuel : Nat) :
    ∀ (n : Nat) (ds : List Char) (c : Char), c ∈ Nat.toDigitsCore 10 fuel n ds →
      c ∈ ds ∨ c.isDigit = true := by
  induction fuel with
  | zero => intro n ds c h; exact Or.inl (by simpa [Nat.toDigitsCore] using h)
  | succ fuel ih =>
    intro n ds c h
    have hd := (digitChar_lt_ten (Nat.mod_lt n (by decide : 0 < 10))).1
    rw [Nat.toDigitsCore] at h

    split at h
    · rcases List.mem_cons.1 h with h | h
      · exact Or.inr (h ▸ hd)
      · exact Or.inl h
    · rcases ih _ _ c h with h | h
      · rcases List.mem_cons.1 h with h | h
        · exact Or.inr (h ▸ hd)
        · exact Or.inl h
      · exact Or.inr h

/-- Every character of the numeral of a natural number is a decimal digit. -/
theorem nat_toString_digits (n : Nat) (c : Char) (h : c ∈ (toString n).data) :
    c.isDigit = true := by
  have h' : c ∈ Nat.toDigitsCore 10 (n + 1) n [] := h
  rcases toDigitsCore_digits _ _ _ _ h' with h | h
  · simp at h
  · exact h

theorem toDigitsCore_value (fuel : Nat) :
    ∀ (n : Nat) (ds : List Char), n < fuel →
      (Nat.toDigitsCore 10 fuel n ds).foldl (fun a c => 10 * a + (c.toNat - 48)) 0
        = ds.foldl (fun a c => 10 * a + (c.toNat - 48)) n := by
  induction fuel with
  | zero => intro n ds h; omega
  | succ fuel ih =>
    intro n ds hn
    have hd := (digitChar_lt_ten (Nat.mod_lt n (by decide : 0 < 10))).2
    rw [Nat.toDigitsCore]

    split
    · rename_i h0
      simp only [List.foldl_cons, hd]
      congr 1
      omega
    · rename_i h0
      rw [ih _ _ (by omega)]
      simp only [List.foldl_cons, hd]
      congr 1
      omega

theorem nat_toString_value (n : Nat) : digits_value (toString n).data = n := by
  have h := toDigitsCore_value (n + 1) n [] (by omega)
  simpa using h

theorem nat_toString_injective {a b : Nat} (h : toString a = toString b) : a = b := by
  rw [← nat_toString_value a, ← nat_toString_value b, h]

theorem nat_toString_ne_nil (n : Nat) : (toString n).data ≠ [] := by
  have h : (toString n).data = Nat.toDigitsCore 10 (n + 1) n [] := rfl
  rw [h, Nat.toDigitsCore]

  split
  · simp
  · intro h2
    have : Nat.digitChar (n % 10) ∈ Nat.toDigitsCore 10 n (n / 10) [Nat.digitChar (n % 10)] := by
      have key : ∀ (fuel m : Nat) (ds : List Char) (c : Char), c ∈ ds →
          c ∈ Nat.toDigitsCore 10 fuel m ds := by
        intro fuel
        induction fuel with
        | zero => intro m ds c hc; simpa [Nat.toDigitsCore] using hc
        | succ fuel ih =>
          intro m ds c hc
          rw [Nat.toDigitsCore]

          split
          · exact List.mem_cons_of_mem _ hc
          · exact ih _ _ _ (List.mem_cons_of_mem _ hc)
      exact key _ _ _ _ (by simp)
    rw [h2] at this
    simp at this

theorem int_toString_ofNat (m : Nat) : toString (Int.ofNat m) = toString m := rfl

theorem int_toString_negSucc (m : Nat) :
    toString (Int.negSucc m) = "-" ++ toString (m + 1) := rfl

/-- The numeral of an integer has no line break (nor any blank). -/
theorem int_toString_chars (x : Int) (c : Char) (h : c ∈ (toString x).data) :
    c = '-' ∨ c.isDigit = true := by
  cases x with
  | ofNat m =>
    rw [int_toString_ofNat] at h
    exact Or.inr (nat_toString_digits m c h)
  | negSucc m =>
    rw [int_toString_negSucc, String.data_append] at h
    rcases List.mem_append.1 h with h | h
    · have e : "-".data = ['-'] := rfl
      rw [e] at h
      exact Or.inl (List.mem_singleton.1 h)
    · exact Or.inr (nat_toString_digits _ c h)

/-- Two integers with the same numeral are equal: `std::to_string` loses nothing. -/
theorem int_toString_injective {x y : Int} (h : toString x = toString y) : x = y := by
  have hd : ∀ m : Nat, ∀ t : String, toString m ≠ "-" ++ t := by
    intro m t e
    have e2 := congrArg String.data e
    rw [String.data_append] at e2
    have e3 : "-".data = ['-'] := rfl
    rw [e3] at e2
    have hmem : '-' ∈ (toString m).data := by rw [e2]; simp
    have := nat_toString_digits m '-' hmem
    exact absurd this (by decide)
  cases x with
  | ofNat a =>
    cases y with
    | ofNat b =>
      rw [int_toString_ofNat, int_toString_ofNat] at h
      rw [nat_toString_injective h]
    | negSucc b =>
      rw [int_toString_ofNat, int_toString_negSucc] at h
      exact absurd h (hd _ _)
  | negSucc a =>
    cases y with
    | ofNat b =>
      rw [int_toString_ofNat, int_toString_negSucc] at h
      exact absurd h.symm (hd _ _)
    | negSucc b =>
      rw [int_toString_negSucc, int_toString_negSucc] at h
      have e2 := congrArg String.data h
      rw [String.data_append, String.data_append] at e2
      have e3 := List.append_cancel_left e2
      have e4 : toString (a + 1) = toString (b + 1) := String.ext e3
      have := nat_toString_injective e4
      have : a = b := by omega
      rw [this]

theorem insert_line_injective {x y : Int}
    (h : "INSERT " ++ toString x = "INSERT " ++ toString y) : x = y := by
  have e2 := congrArg String.data h
  rw [String.data_append, String.data_append] at e2
  exact int_toString_injective (String.ext (List.append_cancel_left e2))

theorem foldl_append_string (l : List String) (acc : String) :
    l.foldl (fun r s => r ++ s) acc = acc ++ l.foldl (fun r s => r ++ s) "" := by
  induction l generalizing acc with
  | nil => simp
  | cons a l ih =>
    simp only [List.foldl_cons]
    rw [ih (acc ++ a), ih ("" ++ a), String.empty_append, String.append_assoc]

theorem lines_text_cons (a : String) (l : List String) :
    lines_text (a :: l) = a ++ "\n" ++ lines_text l := by
  unfold lines_text String.join
  simp only [List.map_cons, List.foldl_cons]
  rw [foldl_append_string, String.empty_append]

theorem lines_text_nil : lines_text [] = "" := rfl

theorem split_lines_line (l rest : List Char) (h : '\n' ∉ l) :
    split_lines (l ++ '\n' :: rest) = l :: split_lines rest := by
  induction l with
  | nil => simp [split_lines]
  | cons c l ih =>
    have hc : c ≠ '\n' := fun e => h (by simp [e])
    have hl : '\n' ∉ l := fun e => h (List.mem_cons_of_mem _ e)
    rw [List.cons_append, split_lines, if_neg hc, ih hl]

/-- Reading back the lines of a text made of lines without line breaks. -/
theorem file_lines_lines_text (ls : List String) (h : ∀ l ∈ ls, '\n' ∉ l.data) :
    file_lines (lines_text ls) = ls := by
  unfold file_lines
  induction ls with
  | nil => rfl
  | cons a ls ih =>
    rw [lines_text_cons, String.data_append, String.data_append]
    have e : "\n".data = ['\n'] := rfl
    rw [e, List.append_assoc, List.singleton_append,
      split_lines_line _ _ (h a (List.mem_cons_self _ _)), List.map_cons,
      ih (fun l hl => h l (List.mem_cons_of_mem _ hl))]

theorem query_no_newline : '\n' ∉ "QUERY".data := by decide

theorem int_no_newline (x : Int) : '\n' ∉ (toString x).data := by
  intro h
  rcases int_toString_chars x _ h with h | h
  · exact absurd h (by decide)
  · exact absurd h (by decide)

theorem insert_no_newline (x : Int) : '\n' ∉ ("INSERT " ++ toString x).data := by
  rw [String.data_append]
  intro h
  rcases List.mem_append.1 h with h | h
  · exact absurd h (by decide)
  · exact int_no_newline x h

/-- The `fprintf` events of the final loop append the operations, one per line. -/
theorem foldl_fprintf (path : String) (ops : List String) (acc : String) :
    (ops.map (fun op => Event.fprintf path (op ++ "\n"))).foldl (fun acc e =>
      match e with
      | .fopen p => if p = path then "" else acc
      | .fprintf p t => if p = path then acc ++ t else acc
      | _ => acc) acc = acc ++ lines_text ops := by
  induction ops generalizing acc with
  | nil => simp [lines_text_nil]
  | cons a l ih =>
    simp only [List.map_cons, List.foldl_cons, if_true]
    rw [ih, lines_text_cons, String.append_assoc]

/-- The file that a returning call of `generate_test` leaves. -/
theorem file_text_generate (pre : List Event) (filename : String) (n vr : Int)
    (ops : List String) :
    file_text (filename ++ ".in") (pre ++ generate_events filename n vr ops)
      = lines_text (toString n :: ops) := by
  unfold file_text generate_events
  simp only [List.foldl_append, List.foldl_cons, List.foldl_nil, if_true]
  rw [foldl_fprintf, lines_text_cons, String.empty_append]

/-- For `n ≥ 1` and a file that opens, `generate_test` returns and leaves the file made
of the line `n` and the operations, which are also the lines read back from it. -/
theorem generate_test_file (env : Env) (filename : String) (n vr : Int) (s : Sys)
    (hopen : env.can_open (filename ++ ".in") = true) (hn1 : 1 ≤ n) (hn2 : n ≤ INT_MAX) :
    ∃ ops s', generate_test env filename n vr s = .ok () s' ∧ Generated env n vr ops ∧
      file_text (filename ++ ".in") s'.trace = lines_text (toString n :: ops) ∧
      file_lines (file_text (filename ++ ".in") s'.trace) = toString n :: ops := by
  obtain ⟨ops, s', h1, hg, ht, _, _⟩ := generate_test_spec env filename n vr s hopen hn1 hn2
  have e : file_text (filename ++ ".in") s'.trace = lines_text (toString n :: ops) := by
    rw [ht, file_text_generate]
  refine ⟨ops, s', h1, hg, e, ?_⟩
  rw [e]
  apply file_lines_lines_text
  intro l hl
  rcases List.mem_cons.1 hl with h | h
  · rw [h]; exact int_no_newline n
  · rcases hg.shape l h with h | ⟨x, _, h⟩
    · rw [h]; exact query_no_newline
    · rw [h]; exact insert_no_newline x

/-- The values of `random(-r, r)` lie in `[-r, r]` when `2 r + 1` fits an `int`. -/
theorem drawn_from_range (env : Env) (r x : Int) (h0 : 0 ≤ r) (h1 : r ≤ 1073741823)
    (h : drawn_from env r x) : -r ≤ x ∧ x ≤ r := by
  obtain ⟨raw, hraw, hx⟩ := h
  have e1 : to_int (-r) = -r :=
    to_int_of_range (by unfold INT_MIN; omega) (by unfold INT_MAX; omega)
  rw [e1, random_value_of_safe env.T raw (-r) r (2 * r + 1).toNat (by unfold INT_MIN; omega)
    (by unfold INT_MAX; omega) (by omega) (by omega) (by unfold INT_MAX; omega) hraw] at hx
  have hk : raw % (2 * r + 1).toNat < (2 * r + 1).toNat := Nat.mod_lt _ (by omega)
  have hx' := Option.some.inj hx
  omega

/-- With a 32-bit result type the wrapped modulus of `random(-r, r)` is still `2 r + 1`,
so the value stays in `[-r, r]` for every `r ≥ 0`, although `r - l + 1` overflows `int`
from `r = 2^30` on. -/
theorem drawn_from_range_u32 (env : Env) (r x : Int) (hT : env.T = .u32) (h0 : 0 ≤ r)
    (h1 : r ≤ INT_MAX) (h : drawn_from env r x) : -r ≤ x ∧ x ≤ r := by
  obtain ⟨raw, _, hx⟩ := h
  unfold INT_MAX at h1
  have e1 : to_int (-r) = -r := by rw [to_int_def]; omega
  have e2 : to_unsigned .u32 (to_int (to_int (r - -r) + 1)) = (2 * r + 1).toNat := by
    rw [to_unsigned_u32, to_int_def, to_int_def]; omega
  rw [hT, e1, random_value_def, e2, if_neg (by omega), to_unsigned_u32, modulus_u32,
    to_int_def] at hx
  have hk : raw % (2 * r + 1).toNat < (2 * r + 1).toNat := Nat.mod_lt _ (by omega)
  have hx' := Option.some.inj hx
  generalize raw % (2 * r + 1).toNat = k at *
  push_cast at hx'
  omega

/-- C1: for every `n ≥ 1`, every `value_range` and every sequence of raw outputs,
`generate_test` returns and the operation lines of the file it wrote contain at least one
line `QUERY`. -/
theorem generate_test_has_query (env : Env) (filename : String) (n value_range : Int)
    (s : Sys) (hopen : env.can_open (filename ++ ".in") = true) (hn : 1 ≤ n)
    (hmax : n ≤ INT_MAX) :
    ∃ s', generate_test env filename n value_range s = .ok () s' ∧
      "QUERY" ∈ (file_lines (file_text (filename ++ ".in") s'.trace)).tail := by
  obtain ⟨ops, s', h1, hg, _, hl⟩ := generate_test_file env filename n value_range s hopen hn hmax
  exact ⟨s', h1, by rw [hl]; exact hg.has_query⟩

theorem generate_test_has_query_witness :
    (example_env .u32 [7, 0, 9]).can_open ("t" ++ ".in") = true ∧ (1 : Int) ≤ 3 ∧
      (3 : Int) ≤ INT_MAX ∧
      ∃ s', generate_test (example_env .u32 [7, 0, 9]) "t" 3 100 Sys.init = .ok () s' ∧
        "QUERY" ∈ (file_lines (file_text ("t" ++ ".in") s'.trace)).tail :=
  ⟨rfl, by decide, by decide,
    generate_test_has_query (example_env .u32 [7, 0, 9]) "t" 3 100 Sys.init rfl (by decide)
      (by decide)⟩

/-- C2, as stated, fails: with a 64-bit result type, `value_range = 2^30` and the raw
output `2^32 - 1`, the `int` expression `r - l + 1 = 2^31 + 1` overflows and the line
written is `INSERT -1073741825`, below `-value_range`. -/
theorem insert_range_counterexample :
    (0 : Int) ≤ 1073741824 ∧ (1073741824 : Int) ≤ INT_MAX ∧
      INT_MAX < 1073741824 - (-1073741824) + 1 ∧
      ∃ s' x, generate_test (example_env .u64 [4294967295, 1]) "t" 2 1073741824 Sys.init
          = .ok () s' ∧
        "INSERT " ++ toString x ∈ (file_lines (file_text "t.in" s'.trace)).tail ∧
        ¬ (-1073741824 ≤ x ∧ x ≤ 1073741824) :=
  ⟨by decide, by decide, by decide, _, -1073741825, rfl, by decide, by decide⟩

/-- C2, amended: for every `n ≥ 1`, every `value_range = r` with `0 ≤ r ≤ 2^30 - 1` (so
that `r - l + 1 = 2 r + 1` fits an `int`), either width of the result type and every
sequence of raw outputs, `generate_test` returns and every line `INSERT x` of the file it
wrote has `-r ≤ x ≤ r`. -/
theorem insert_range (env : Env) (filename : String) (n r : Int) (s : Sys)
    (hopen : env.can_open (filename ++ ".in") = true) (hn : 1 ≤ n) (hmax : n ≤ INT_MAX)
    (hr0 : 0 ≤ r) (hr1 : r ≤ 1073741823) :
    ∃ s', generate_test env filename n r s = .ok () s' ∧
      ∀ x : Int, "INSERT " ++ toString x ∈
          (file_lines (file_text (filename ++ ".in") s'.trace)).tail →
        -r ≤ x ∧ x ≤ r := by
  obtain ⟨ops, s', h1, hg, _, hl⟩ := generate_test_file env filename n r s hopen hn hmax
  refine ⟨s', h1, ?_⟩
  intro x hx
  rw [hl] at hx
  rcases hg.shape _ hx with h | ⟨y, hy, h⟩
  · exact absurd h (insert_ne_query _)
  · rw [insert_line_injective h]
    exact drawn_from_range env r y hr0 hr1 hy

theorem insert_range_witness :
    (example_env .u64 [4294967295, 1]).can_open ("t" ++ ".in") = true ∧ (1 : Int) ≤ 2 ∧
      (2 : Int) ≤ INT_MAX ∧ (0 : Int) ≤ 1073741823 ∧ (1073741823 : Int) ≤ 1073741823 ∧
      ∃ s', generate_test (example_env .u64 [4294967295, 1]) "t" 2 1073741823 Sys.init
          = .ok () s' ∧
        ∀ x : Int, "INSERT " ++ toString x ∈
            (file_lines (file_text ("t" ++ ".in") s'.trace)).tail →
          -1073741823 ≤ x ∧ x ≤ 1073741823 :=
  ⟨rfl, by decide, by decide, by decide, by decide,
    insert_range (example_env .u64 [4294967295, 1]) "t" 2 1073741823 Sys.init rfl
      (by decide) (by decide) (by decide) (by decide)⟩

/-- C3: for every `n ≥ 1`, every `value_range` and every sequence of raw outputs,
`generate_test` returns and the text it wrote is the numeral of `n` on the first line
followed by exactly `n` further lines, each `QUERY` or `INSERT ` followed by the numeral of
an integer. -/
theorem generate_test_format (env : Env) (filename : String) (n value_range : Int)
    (s : Sys) (hopen : env.can_open (filename ++ ".in") = true) (hn : 1 ≤ n)
    (hmax : n ≤ INT_MAX) :
    ∃ ops s', generate_test env filename n value_range s = .ok () s' ∧
      file_text (filename ++ ".in") s'.trace = lines_text (toString n :: ops) ∧
      file_lines (file_text (filename ++ ".in") s'.trace) = toString n :: ops ∧
      (ops.length : Int) = n ∧
      ∀ op ∈ ops, op = "QUERY" ∨ ∃ x : Int, op = "INSERT " ++ toString x := by
  obtain ⟨ops, s', h1, hg, ht, hl⟩ :=
    generate_test_file env filename n value_range s hopen hn hmax
  refine ⟨ops, s', h1, ht, hl, ?_, ?_⟩
  · rw [hg.length]; omega
  · intro op hop
    rcases hg.shape op hop with h | ⟨x, _, h⟩
    · exact Or.inl h
    · exact Or.inr ⟨x, h⟩

theorem generate_test_format_witness :
    (example_env .u32 [7, 0, 9]).can_open ("t" ++ ".in") = true ∧ (1 : Int) ≤ 3 ∧
      (3 : Int) ≤ INT_MAX ∧
      ∃ ops s', generate_test (example_env .u32 [7, 0, 9]) "t" 3 100 Sys.init = .ok () s' ∧
        file_text ("t" ++ ".in") s'.trace = lines_text (toString (3 : Int) :: ops) ∧
        file_lines (file_text ("t" ++ ".in") s'.trace) = toString (3 : Int) :: ops ∧
        (ops.length : Int) = 3 ∧
        ∀ op ∈ ops, op = "QUERY" ∨ ∃ x : Int, op = "INSERT " ++ toString x :=
  ⟨rfl, by decide, by decide,
    generate_test_format (example_env .u32 [7, 0, 9]) "t" 3 100 Sys.init rfl (by decide)
      (by decide)⟩

/-- C4 fails on the code: for `n = 0` the loop is not entered, `queries == 0` holds, and
`generate_test` calls `random(0, -1)`, whose `rnd() % 0` is a division by zero.  The call
does not return; the file was opened and `0` was printed to it, and it is never closed. -/
theorem generate_test_zero_crashes (T : ResultType) (raws : Nat → Nat) (status : Nat → Int)
    (value_range : Int) :
    generate_test ⟨T, raws, status, fun _ => true⟩ "t" 0 value_range Sys.init
      = .crashed ⟨1, 0, [(0, -1)],
          [.call_generate_test "t" 0 value_range, .fopen "t.in", .fprintf "t.in" "0\n"]⟩ := by
  cases T <;> rfl

/-- C5: for every `n ≥ 1`, every `value_range` and every sequence of raw outputs, either
the first operation line of the file is an `INSERT`, or the file has exactly one `QUERY`
and it is the first operation line.  So either every `QUERY` line has an `INSERT` line
before it, or the only `QUERY` of the file is its first operation line. -/
theorem query_after_insert (env : Env) (filename : String) (n value_range : Int)
    (s : Sys) (hopen : env.can_open (filename ++ ".in") = true) (hn : 1 ≤ n)
    (hmax : n ≤ INT_MAX) :
    ∃ ops s', generate_test env filename n value_range s = .ok () s' ∧
      file_lines (file_text (filename ++ ".in") s'.trace) = toString n :: ops ∧
      ((∃ (x : Int) (rest : List String), ops = ("INSERT " ++ toString x) :: rest) ∨
        (∃ rest, ops = "QUERY" :: rest ∧ "QUERY" ∉ rest)) ∧
      ((∀ i, ops[i]? = some "QUERY" →
          ∃ (j : Nat) (x : Int), j < i ∧ ops[j]? = some ("INSERT " ++ toString x)) ∨
        (ops.head? = some "QUERY" ∧ ops.count "QUERY" = 1)) := by
  obtain ⟨ops, s', h1, hg, _, hl⟩ :=
    generate_test_file env filename n value_range s hopen hn hmax
  refine ⟨ops, s', h1, hl, ?_, ?_⟩
  · rcases hg.first with ⟨op, rest, h, x, _, hx⟩ | h
    · exact Or.inl ⟨x, rest, by rw [h, hx]⟩
    · exact Or.inr h
  · rcases hg.first with ⟨op, rest, h, x, _, hx⟩ | ⟨rest, h, hnot⟩
    · left
      intro i hi
      refine ⟨0, x, ?_, by rw [h, hx]; simp⟩
      cases i with
      | zero =>
        rw [h, hx] at hi
        simp at hi
        exact absurd hi (insert_ne_query _)
      | succ i => omega
    · right
      rw [h]
      refine ⟨rfl, ?_⟩
      rw [List.count_cons_self, List.count_eq_zero.2 hnot]

theorem query_after_insert_witness :
    (example_env .u32 [7, 0, 9]).can_open ("t" ++ ".in") = true ∧ (1 : Int) ≤ 3 ∧
      (3 : Int) ≤ INT_MAX ∧
      ∃ ops s', generate_test (example_env .u32 [7, 0, 9]) "t" 3 100 Sys.init = .ok () s' ∧
        file_lines (file_text ("t" ++ ".in") s'.trace) = toString (3 : Int) :: ops ∧
        ((∃ (x : Int) (rest : List String), ops = ("INSERT " ++ toString x) :: rest) ∨
          (∃ rest, ops = "QUERY" :: rest ∧ "QUERY" ∉ rest)) ∧
        ((∀ i, ops[i]? = some "QUERY" →
            ∃ (j : Nat) (x : Int), j < i ∧ ops[j]? = some ("INSERT " ++ toString x)) ∨
          (ops.head? = some "QUERY" ∧ ops.count "QUERY" = 1)) :=
  ⟨rfl, by decide, by decide,
    query_after_insert (example_env .u32 [7, 0, 9]) "t" 3 100 Sys.init rfl (by decide)
      (by decide)⟩

/-- With `n = 1` the loop pushes one `INSERT` and the step after it overwrites it. -/
theorem single_operation (env : Env) (value_range : Int) (s0 : Sys) :
    ∃ x : Int,
      loop env value_range 1 ⟨[], 0, 0⟩ s0 = .ok ⟨["INSERT " ++ toString x], 1, 0⟩
        (s0.after_random (to_int (-value_range)) value_range) ∧
      ensure_query env 1 ⟨["INSERT " ++ toString x], 1, 0⟩
          (s0.after_random (to_int (-value_range)) value_range)
        = .ok ["QUERY"] ((s0.after_random (to_int (-value_range)) value_range).after_random 0 0) := by
  obtain ⟨x, _, hr⟩ := random_sym env value_range s0
  refine ⟨x, ?_, ?_⟩
  · simp only [loop, loop_body, push_insert, hr, Res.bind]
    rfl
  · have hval := random_value_of_safe env.T
      (env.raws (s0.after_random (to_int (-value_range)) value_range).drawn % 4294967296) 0 0 1
      (by decide) (by decide) (by decide) (by decide) (by decide) (raw_lt env _)
    have e : to_int (1 - 1) = 0 := by decide
    simp only [ensure_query, if_true, e, random_eq, hval, Res.bind, Nat.mod_one]
    rfl

/-- C6: for `n = 1`, every `value_range` and every sequence of raw outputs, the single
generated operation is an `INSERT`, the correction step overwrites it with `QUERY`, and
the file written is exactly `1`, `QUERY`, each followed by a line break. -/
theorem generate_test_one (env : Env) (filename : String) (value_range : Int) (s : Sys)
    (hopen : env.can_open (filename ++ ".in") = true) :
    (∀ s0 : Sys, ∃ (x : Int) (s1 s2 : Sys),
      loop env value_range 1 ⟨[], 0, 0⟩ s0 = .ok ⟨["INSERT " ++ toString x], 1, 0⟩ s1 ∧
      ensure_query env 1 ⟨["INSERT " ++ toString x], 1, 0⟩ s1 = .ok ["QUERY"] s2) ∧
    ∃ s', generate_test env filename 1 value_range s = .ok () s' ∧
      file_text (filename ++ ".in") s'.trace = "1\nQUERY\n" := by
  refine ⟨fun s0 => ?_, ?_⟩
  · obtain ⟨x, h1, h2⟩ := single_operation env value_range s0
    exact ⟨x, _, _, h1, h2⟩
  · let s0 : Sys := ((s.emit (.call_generate_test filename 1 value_range)).emit
      (.fopen (filename ++ ".in"))).emit
        (.fprintf (filename ++ ".in") (toString (1 : Int) ++ "\n"))
    obtain ⟨x, h1, h2⟩ := single_operation env value_range s0
    refine ⟨(write_operations (filename ++ ".in") ["QUERY"]
      ((s0.after_random (to_int (-value_range)) value_range).after_random 0 0)).emit
      (.fclose (filename ++ ".in")), ?_, ?_⟩
    · unfold generate_test
      simp only [hopen, Bool.true_eq_false, if_false]
      have e : (1 : Int).toNat = 1 := rfl
      rw [e, h1]
      simp only [Res.bind]
      rw [h2]
    · simp [write_operations, Sys.emit, file_text, Sys.after_random, s0]
      decide

theorem generate_test_one_witness :
    (example_env .u32 [7, 0, 9]).can_open ("t" ++ ".in") = true ∧
      ((∀ s0 : Sys, ∃ (x : Int) (s1 s2 : Sys),
        loop (example_env .u32 [7, 0, 9]) 100 1 ⟨[], 0, 0⟩ s0
          = .ok ⟨["INSERT " ++ toString x], 1, 0⟩ s1 ∧
        ensure_query (example_env .u32 [7, 0, 9]) 1 ⟨["INSERT " ++ toString x], 1, 0⟩ s1
          = .ok ["QUERY"] s2) ∧
      ∃ s', generate_test (example_env .u32 [7, 0, 9]) "t" 1 100 Sys.init = .ok () s' ∧
        file_text ("t" ++ ".in") s'.trace = "1\nQUERY\n") :=
  ⟨rfl, generate_test_one (example_env .u32 [7, 0, 9]) "t" 100 Sys.init rfl⟩

theorem count_congr_below (p q : Nat → Prop) [DecidablePred p] [DecidablePred q] (n : Nat)
    (h : ∀ k, k < n → (p k ↔ q k)) : Nat.count p n = Nat.count q n := by
  induction n with
  | zero => simp
  | succ n ih =>
    rw [Nat.count_succ, Nat.count_succ, ih (fun k hk => h k (by omega))]
    have := h n (by omega)
    by_cases hp : p n
    · rw [if_pos hp, if_pos (this.1 hp)]
    · rw [if_neg hp, if_neg (fun hq => hp (this.2 hq))]

/-- Number of `raw < b` with `raw % m = k`. -/
theorem count_mod_eq (b m k : Nat) (hm : 0 < m) (hk : k < m) :
    Nat.count (fun raw => raw % m = k) b = b / m + if k < b % m then 1 else 0 := by
  have h := Nat.count_modEq_card b hm k
  rw [Nat.mod_eq_of_lt hk] at h
  rw [← h]
  apply count_congr_below
  intro raw _
  unfold Nat.ModEq
  rw [Nat.mod_eq_of_lt hk]

/-- Without overflow in `r - l + 1 = m`, the value `v` of `[l, r]` is returned for the raw
outputs congruent to `v - l` modulo `m`. -/
theorem hits_of_safe (T : ResultType) (l r v : Int) (m : Nat)
    (hl : INT_MIN ≤ l) (hr : r ≤ INT_MAX) (hm : (m : Int) = r - l + 1) (h1 : 1 ≤ m)
    (h2 : (m : Int) ≤ INT_MAX) (hv1 : l ≤ v) (hv2 : v ≤ r) :
    hits T l r v = 4294967296 / m + if (v - l).toNat < 4294967296 % m then 1 else 0 := by
  rw [← count_mod_eq 4294967296 m (v - l).toNat (by omega) (by omega)]
  unfold hits
  apply count_congr_below
  intro raw hraw
  rw [random_value_of_safe T raw l r m hl hr hm h1 h2 hraw]
  have hk : raw % m < m := Nat.mod_lt _ (by omega)
  constructor
  · intro h
    have := Option.some.inj h
    omega
  · intro h
    refine congrArg some ?_
    omega

/-- C7, as stated, fails.  `random(0, 2)` returns 0 for 1431655766 of the `2^32` raw
outputs and 1 for 1431655765 of them, since 3 does not divide `2^32`.  For the pair
`INT_MIN ≤ INT_MAX` the `int` expression `r - l + 1` overflows to 0: a division by zero,
no value at all.  And for `-2^30 ≤ 2^30`, where `r - l + 1` overflows too, a 64-bit
result type returns a value below `low`. -/
theorem random_uniform_counterexample :
    ((0 : Int) ≤ 2 ∧ hits .u32 0 2 0 = 1431655766 ∧ hits .u32 0 2 1 = 1431655765) ∧
      (INT_MIN ≤ INT_MAX ∧ random_value .u32 0 INT_MIN INT_MAX = none ∧
        random_value .u64 0 INT_MIN INT_MAX = none) ∧
      ((-1073741824 : Int) ≤ 1073741824 ∧
        random_value .u64 4294967295 (-1073741824) 1073741824 = some (-1073741825)) := by
  refine ⟨⟨by decide, ?_, ?_⟩, ⟨by decide, by decide, by decide⟩, by decide, by decide⟩
  · rw [hits_of_safe .u32 0 2 0 3 (by decide) (by decide) (by decide) (by decide) (by decide)
      (by decide) (by decide)]
    decide
  · rw [hits_of_safe .u32 0 2 1 3 (by decide) (by decide) (by decide) (by decide) (by decide)
      (by decide) (by decide)]
    decide

/-- C7, amended: for 32-bit ints `low ≤ high` with `m = high - low + 1 ≤ INT_MAX`,
`random(low, high)` returns a value of `[low, high]` for every raw output, and each `v` of
`[low, high]` is returned for `⌊2^32 / m⌋ + 1` raw outputs below `2^32` when
`v - low < 2^32 mod m` and for `⌊2^32 / m⌋` of them otherwise. -/
theorem random_distribution (T : ResultType) (low high : Int) (hlow : INT_MIN ≤ low)
    (hle : low ≤ high) (hhigh : high ≤ INT_MAX) (hfit : high - low + 1 ≤ INT_MAX) :
    (∀ raw, raw < 4294967296 →
      ∃ v, random_value T raw low high = some v ∧ low ≤ v ∧ v ≤ high) ∧
    (∀ v, low ≤ v → v ≤ high →
      hits T low high v = 4294967296 / (high - low + 1).toNat +
        if (v - low).toNat < 4294967296 % (high - low + 1).toNat then 1 else 0) := by
  have hm : (((high - low + 1).toNat : Nat) : Int) = high - low + 1 := by omega
  constructor
  · intro raw hraw
    refine ⟨_, random_value_of_safe T raw low high _ hlow hhigh hm (by omega)
      (by rw [hm]; exact hfit) hraw, by omega, ?_⟩
    have hk : raw % (high - low + 1).toNat < (high - low + 1).toNat :=
      Nat.mod_lt _ (by omega)
    omega
  · intro v hv1 hv2
    exact hits_of_safe T low high v _ hlow hhigh hm (by omega) (by rw [hm]; exact hfit)
      hv1 hv2

theorem random_distribution_witness :
    INT_MIN ≤ (0 : Int) ∧ (0 : Int) ≤ 2 ∧ (2 : Int) ≤ INT_MAX ∧ (2 : Int) - 0 + 1 ≤ INT_MAX ∧
      ((∀ raw, raw < 4294967296 →
        ∃ v, random_value .u32 raw 0 2 = some v ∧ 0 ≤ v ∧ v ≤ 2) ∧
      (∀ v, (0 : Int) ≤ v → v ≤ 2 →
        hits .u32 0 2 v = 4294967296 / ((2 : Int) - 0 + 1).toNat +
          if (v - 0).toNat < 4294967296 % ((2 : Int) - 0 + 1).toNat then 1 else 0)) :=
  ⟨by decide, by decide, by decide, by decide,
    random_distribution .u32 0 2 (by decide) (by decide) (by decide) (by decide)⟩

/-- C9: if the compilation command returns a non-zero status, `main` returns 1 and its
only effects are the first console message, the compile command and the failure message:
`generate_test` and `run_standard_solution` are not called, no file is opened, no raw
output is drawn. -/
theorem main_compile_failure (env : Env) (h : env.status 0 ≠ 0) :
    main env Sys.init = .ok 1 ⟨0, 1, [],
      [.cout "🔧 Compiling standard solution...\n",
       .system "g++ -O2 -std=c++17 gpt4o.cpp -o standard_solution",
       .cerr "❌ Compilation failed for gpt4o.cpp\n"]⟩ := by
  unfold main system
  simp only [Res.bind, Sys.emit, Sys.init]
  rw [if_pos h]
  rfl

theorem main_compile_failure_witness :
    (⟨.u32, fun _ => 0, fun _ => 1, fun _ => true⟩ : Env).status 0 ≠ 0 ∧
      main ⟨.u32, fun _ => 0, fun _ => 1, fun _ => true⟩ Sys.init = .ok 1 ⟨0, 1, [],
        [.cout "🔧 Compiling standard solution...\n",
         .system "g++ -O2 -std=c++17 gpt4o.cpp -o standard_solution",
         .cerr "❌ Compilation failed for gpt4o.cpp\n"]⟩ :=
  ⟨by decide, main_compile_failure ⟨.u32, fun _ => 0, fun _ => 1, fun _ => true⟩ (by decide)⟩

theorem steps_append (a b : List Event) : steps (a ++ b) = steps a ++ steps b := by
  unfold steps; rw [List.filter_append]

theorem steps_emit_other (s : Sys) (e : Event) (h : is_step e = false) :
    steps (s.emit e).trace = steps s.trace := by
  simp [Sys.emit, steps, List.filter_append, h]

theorem steps_generate_events (filename : String) (n vr : Int) (ops : List String) :
    steps (generate_events filename n vr ops) = [.call_generate_test filename n vr] := by
  unfold generate_events steps
  simp [List.filter_append, List.filter_cons, is_step]

theorem run_standard_solution_eq (env : Env) (binary in_file out_file : String) (s : Sys) :
    run_standard_solution env binary in_file out_file s
      = .ok (env.status s.spawned == 0)
          { (s.emit (.system ("./" ++ binary ++ " < " ++ in_file ++ " > " ++ out_file)))
              with spawned := s.spawned + 1 } := rfl

/-- One pass of either loop of `main`, when the file opens. -/
theorem generate_and_run_spec (env : Env) (name : String) (n vr : Int) (s : Sys)
    (hopen : env.can_open (name ++ ".in") = true) (hn1 : 1 ≤ n) (hn2 : n ≤ INT_MAX) :
    ∃ s', generate_and_run env "standard_solution" name n vr s = .ok () s' ∧
      steps s'.trace = steps s.trace ++ run_events name n vr := by
  obtain ⟨ops, s1, h1, _, ht, _, _⟩ := generate_test_spec env name n vr s hopen hn1 hn2
  unfold generate_and_run
  rw [h1]
  simp only [Res.bind, run_standard_solution_eq]
  have key : steps ({ (s1.emit (.system ("./" ++ "standard_solution" ++ " < " ++ (name ++ ".in")
      ++ " > " ++ (name ++ ".out")))) with spawned := s1.spawned + 1 } : Sys).trace
      = steps s.trace ++ run_events name n vr := by
    simp only [Sys.emit, ht, steps_append, steps_generate_events, run_events]
    simp [steps, is_step]
  split
  · exact ⟨_, rfl, (steps_emit_other _ (.cout _) rfl).trans key⟩
  · exact ⟨_, rfl, (steps_emit_other _ (.cerr _) rfl).trans key⟩

theorem subtask_loop_spec (env : Env) (hopen : ∀ p, env.can_open p = true) :
    ∀ (l : List (String × Int × Int)) (s : Sys),
      (∀ t ∈ l, 1 ≤ t.2.1 ∧ t.2.1 ≤ INT_MAX) →
      ∃ s', subtask_loop env "standard_solution" l s = .ok () s' ∧
        steps s'.trace = steps s.trace ++ subtask_steps l := by
  intro l
  induction l with
  | nil => intro s _; exact ⟨s, rfl, by simp [subtask_steps]⟩
  | cons t l ih =>
    intro s h
    obtain ⟨name, n, vr⟩ := t
    have hn := h (name, n, vr) (List.mem_cons_self _ _)
    obtain ⟨s1, h1, ht1⟩ := generate_and_run_spec env name n vr s (hopen _) hn.1 hn.2
    obtain ⟨s2, h2, ht2⟩ := ih s1 (fun t ht => h t (List.mem_cons_of_mem _ ht))
    refine ⟨s2, ?_, ?_⟩
    · rw [subtask_loop, h1]; exact h2
    · rw [ht2, ht1, subtask_steps, List.append_assoc]

/-- The sizes `random(1, hi)` returns, for `hi` that fits. -/
theorem random_from_one (env : Env) (hi : Int) (s : Sys) (h1 : 1 ≤ hi) (h2 : hi ≤ INT_MAX) :
    ∃ v, random env 1 hi s = .ok v (s.after_random 1 hi) ∧ 1 ≤ v ∧ v ≤ hi := by
  have hval := random_value_of_safe env.T (env.raws s.drawn % 4294967296) 1 hi hi.toNat
    (by decide) h2 (by omega) (by omega) (by omega) (raw_lt env _)
  have hk : env.raws s.drawn % 4294967296 % hi.toNat < hi.toNat := Nat.mod_lt _ (by omega)
  refine ⟨_, by rw [random_eq, hval], by omega, by omega⟩

theorem case_loop_spec (env : Env) (hopen : ∀ p, env.can_open p = true) :
    ∀ (k i : Nat) (s : Sys),
      ∃ params s', case_loop env "standard_solution" k i s = .ok () s' ∧
        params.length = k ∧
        (∀ p ∈ params, (1 ≤ p.1 ∧ p.1 ≤ 1000) ∧ (1 ≤ p.2 ∧ p.2 ≤ 1000000)) ∧
        steps s'.trace = steps s.trace ++ case_steps i params := by
  intro k
  induction k with
  | zero => intro i s; exact ⟨[], s, rfl, rfl, by simp, by simp [case_steps]⟩
  | succ k ih =>
    intro i s
    obtain ⟨n, hn, hn1, hn2⟩ := random_from_one env 1000 s (by decide) (by decide)
    obtain ⟨vr, hvr, hvr1, hvr2⟩ := random_from_one env 1000000 (s.after_random 1 1000)
      (by decide) (by decide)
    obtain ⟨s1, h1, ht1⟩ := generate_and_run_spec env (case_name i) n vr
      ((s.after_random 1 1000).after_random 1 1000000) (hopen _) hn1
      (by unfold INT_MAX; omega)
    obtain ⟨params, s2, h2, hlen, hp, ht2⟩ := ih (i + 1) s1
    refine ⟨(n, vr) :: params, s2, ?_, by simp [hlen], ?_, ?_⟩
    · rw [case_loop]
      simp only [hn, hvr, Res.bind]
      have h1' : generate_and_run env "standard_solution"
          ("test_cases/test_case_" ++ toString i) n vr
          ((s.after_random 1 1000).after_random 1 1000000) = .ok () s1 := h1
      rw [h1']
      exact h2
    · intro p hp'
      rcases List.mem_cons.1 hp' with h | h
      · rw [h]; exact ⟨⟨hn1, hn2⟩, hvr1, hvr2⟩
      · exact hp p h
    · rw [ht2, ht1, case_steps, List.append_assoc]
      rfl

theorem batch_names_length : batch_names.length = 107 := by decide

theorem case_name_injective : Function.Injective case_name := by
  intro i j h
  have e := congrArg String.data h
  unfold case_name at e
  rw [String.data_append, String.data_append] at e
  exact nat_toString_injective (String.ext (List.append_cancel_left e))

theorem case_name_head (i : Nat) : (case_name i).data.head? = some 't' := by
  unfold case_name
  rw [String.data_append]
  rfl

theorem batch_names_nodup : batch_names.Nodup := by
  unfold batch_names
  rw [List.nodup_append]
  refine ⟨by decide, List.Nodup.map case_name_injective (List.nodup_range 100), ?_⟩
  intro a ha hb
  obtain ⟨i, _, hi⟩ := List.mem_map.1 hb
  have hhead : a.data.head? = some 't' := by rw [← hi]; exact case_name_head i
  have hs : a.data.head? = some 's' := by
    simp only [subtasks, List.map_cons, List.map_nil, List.mem_cons, List.mem_singleton,
      List.mem_nil_iff, or_false] at ha
    rcases ha with h | h | h | h | h | h | h <;> rw [h] <;> rfl
  rw [hs] at hhead
  exact absurd hhead (by decide)

theorem generated_names_steps (trace : List Event) :
    generated_names (steps trace) = generated_names trace := by
  unfold generated_names steps
  induction trace with
  | nil => rfl
  | cons e l ih =>
    cases e <;> simp [List.filter_cons, is_step, List.filterMap_cons, ih]

theorem generated_names_append (a b : List Event) :
    generated_names (a ++ b) = generated_names a ++ generated_names b := by
  unfold generated_names; rw [List.filterMap_append]

theorem generated_names_case_steps (params : List (Int × Int)) :
    ∀ i, generated_names (case_steps i params)
      = (List.range' i params.length).map case_name := by
  induction params with
  | nil => intro i; rfl
  | cons p l ih =>
    intro i
    obtain ⟨n, vr⟩ := p
    rw [case_steps, generated_names_append, ih (i + 1)]
    simp [generated_names, run_events, List.range'_succ]

/-- C8: if the compilation succeeds and every input file can be opened, then whatever
statuses the runs of the solution return, `main` returns 0 after exactly 107 calls of
`generate_test`, with pairwise distinct names: `subtask1` to `subtask7` with the sizes of
the table, then `test_cases/test_case_0` to `test_cases/test_case_99` with sizes drawn in
`[1, 1000]` and `[1, 1000000]`, each call followed by one run of the solution on
`<name>.in` writing `<name>.out`. -/
theorem main_batch (env : Env) (hcompile : env.status 0 = 0)
    (hopen : ∀ p, env.can_open p = true) :
    ∃ params s', main env Sys.init = .ok 0 s' ∧ params.length = 100 ∧
      (∀ p ∈ params, (1 ≤ p.1 ∧ p.1 ≤ 1000) ∧ (1 ≤ p.2 ∧ p.2 ≤ 1000000)) ∧
      steps s'.trace = .system "g++ -O2 -std=c++17 gpt4o.cpp -o standard_solution" ::
        (subtask_steps
          [("subtask1", 2, 100), ("subtask2", 10, 1000), ("subtask3", 100, 10000),
           ("subtask4", 1000, 1000000), ("subtask5", 10000, 1000000000),
           ("subtask6", 50000, 1000000000), ("subtask7", 100000, 1000000000)]
          ++ case_steps 0 params) ∧
      generated_names s'.trace = batch_names ∧
      (generated_names s'.trace).length = 107 ∧
      (generated_names s'.trace).Nodup := by
  obtain ⟨s1, h1, ht1⟩ := subtask_loop_spec env hopen subtasks
    ({ ((Sys.init.emit (.cout "🔧 Compiling standard solution...\n")).emit
        (.system "g++ -O2 -std=c++17 gpt4o.cpp -o standard_solution"))
        with spawned := 1 } |>.emit (.cout "✅ Compilation complete.\n"))
    (by decide)
  obtain ⟨params, s2, h2, hlen, hp, ht2⟩ := case_loop_spec env hopen 100 0
    (s1.emit (.create_directory "test_cases"))
  have hsteps : steps (s2.emit (.cout ("\n🎉 All .in and .out files generated using "
      ++ "gpt4o.cpp" ++ ".\n"))).trace
      = .system "g++ -O2 -std=c++17 gpt4o.cpp -o standard_solution" ::
        (subtask_steps subtasks ++ case_steps 0 params) := by
    rw [steps_emit_other _ (.cout _) rfl, ht2, steps_emit_other _ (.create_directory _) rfl,
      ht1]
    rfl
  have hnames : generated_names (s2.emit (.cout ("\n🎉 All .in and .out files generated using "
      ++ "gpt4o.cpp" ++ ".\n"))).trace = batch_names := by
    rw [← generated_names_steps, hsteps]
    have e : generated_names (subtask_steps subtasks) = subtasks.map (·.1) := by decide
    rw [show (Event.system "g++ -O2 -std=c++17 gpt4o.cpp -o standard_solution" ::
        (subtask_steps subtasks ++ case_steps 0 params))
        = [Event.system "g++ -O2 -std=c++17 gpt4o.cpp -o standard_solution"]
          ++ (subtask_steps subtasks ++ case_steps 0 params) from rfl,
      generated_names_append, generated_names_append, e, generated_names_case_steps, hlen,
      ← List.range_eq_range']
    rfl
  refine ⟨params, _, ?_, hlen, hp, hsteps, hnames, ?_, ?_⟩
  · unfold main system
    simp only [Res.bind]
    have hc : ¬ (env.status Sys.init.spawned ≠ 0) := by
      simpa [Sys.init, Sys.emit] using hcompile
    have hc' : ¬ (env.status (Sys.init.emit
        (.cout "🔧 Compiling standard solution...\n")).spawned ≠ 0) := hc
    rw [if_neg hc']
    have h1' : subtask_loop env "standard_solution" subtasks
        (({ (((Sys.init.emit (.cout "🔧 Compiling standard solution...\n")).emit
          (.system ("g++ -O2 -std=c++17 " ++ "gpt4o.cpp" ++ " -o " ++ "standard_solution"))))
          with spawned := (Sys.init.emit
            (.cout "🔧 Compiling standard solution...\n")).spawned + 1 } : Sys).emit
          (.cout "✅ Compilation complete.\n")) = .ok () s1 := h1
    rw [h1']
    simp only [Res.bind]
    rw [h2]
  · rw [hnames]; exact batch_names_length
  · rw [hnames]; exact batch_names_nodup

theorem main_batch_witness :
    (example_env .u32 []).status 0 = 0 ∧ (∀ p, (example_env .u32 []).can_open p = true) ∧
      ∃ params s', main (example_env .u32 []) Sys.init = .ok 0 s' ∧ params.length = 100 ∧
        (∀ p ∈ params, (1 ≤ p.1 ∧ p.1 ≤ 1000) ∧ (1 ≤ p.2 ∧ p.2 ≤ 1000000)) ∧
        steps s'.trace = .system "g++ -O2 -std=c++17 gpt4o.cpp -o standard_solution" ::
          (subtask_steps
            [("subtask1", 2, 100), ("subtask2", 10, 1000), ("subtask3", 100, 10000),
             ("subtask4", 1000, 1000000), ("subtask5", 10000, 1000000000),
             ("subtask6", 50000, 1000000000), ("subtask7", 100000, 1000000000)]
            ++ case_steps 0 params) ∧
        generated_names s'.trace = batch_names ∧
        (generated_names s'.trace).length = 107 ∧
        (generated_names s'.trace).Nodup :=
  ⟨rfl, fun _ => rfl, main_batch (example_env .u32 []) rfl (fun _ => rfl)⟩

theorem main_call_safe {c : Int × Int} (h : main_call c) : safe_call c := by
  unfold safe_call INT_MIN INT_MAX
  rcases h with h | h | h | ⟨vr, h1, h2, h⟩ | ⟨n, h1, h2, h⟩ <;> rw [h] <;> simp <;> omega

theorem Safe.congr {s s' : Sys} (h : Safe s) (hc : s'.calls = s.calls)
    (ht : s'.trace = s.trace) : Safe s' := by
  unfold Safe; rw [hc, ht]; exact h

theorem Safe.emit {s : Sys} (h : Safe s) (e : Event)
    (he : ∀ f n vr, e = .call_generate_test f n vr → main_sizes n vr) : Safe (s.emit e) := by
  refine ⟨h.1, ?_⟩
  intro f n vr hmem
  rcases List.mem_append.1 hmem with h' | h'
  · exact h.2 f n vr h'
  · exact he f n vr (List.mem_singleton.1 h').symm

theorem Safe.after_random {s : Sys} (h : Safe s) (l r : Int) (hc : main_call (l, r)) :
    Safe (s.after_random l r) := by
  refine ⟨?_, h.2⟩
  intro c hmem
  rcases List.mem_append.1 hmem with h' | h'
  · exact h.1 c h'
  · rw [List.mem_singleton.1 h']; exact hc

theorem SafeRes.bind {α β : Type} {x : Res α} {f : α → Sys → Res β} (hx : SafeRes x)
    (hf : ∀ a s, x = .ok a s → SafeRes (f a s)) : SafeRes (x.bind f) := by
  cases x with
  | ok a s => exact hf a s rfl
  | exited c s => exact hx
  | crashed s => exact hx

theorem generate_test_safe (env : Env) (filename : String) (n vr : Int) (s : Sys)
    (hs : Safe s) (hsz : main_sizes n vr) :
    SafeRes (generate_test env filename n vr s) := by
  obtain ⟨hn1, hn2, hv1, hv2⟩ := hsz
  by_cases hopen : env.can_open (filename ++ ".in") = true
  · obtain ⟨ops, s', h1, _, ht, _, extra, hc, he⟩ :=
      generate_test_spec env filename n vr s hopen hn1 (by unfold INT_MAX; omega)
    rw [h1]
    refine ⟨?_, ?_⟩
    · intro c hmem
      rw [hc] at hmem
      rcases List.mem_append.1 hmem with h' | h'
      · exact hs.1 c h'
      · rcases he c h' with h | h | h
        · exact Or.inl h
        · have e : to_int (-vr) = -vr :=
            to_int_of_range (by unfold INT_MIN; omega) (by unfold INT_MAX; omega)
          rw [e] at h
          exact Or.inr (Or.inr (Or.inr (Or.inl ⟨vr, hv1, hv2, h⟩)))
        · exact Or.inr (Or.inr (Or.inr (Or.inr ⟨n, hn1, hn2, h⟩)))
    · intro f n' vr' hmem
      rw [ht] at hmem
      rcases List.mem_append.1 hmem with h' | h'
      · exact hs.2 f n' vr' h'
      · simp [generate_events] at h'
        rw [h'.2.1, h'.2.2]
        exact ⟨hn1, hn2, hv1, hv2⟩
  · have hopen' : env.can_open (filename ++ ".in") = false := by
      simpa using hopen
    unfold generate_test
    simp only [hopen', if_true]
    refine (hs.emit _ ?_).emit _ ?_
    · intro f n' vr' h
      injection h with _ h2 h3
      rw [← h2, ← h3]
      exact ⟨hn1, hn2, hv1, hv2⟩
    · intro f n' vr' h
      cases h

theorem generate_and_run_safe (env : Env) (binary name : String) (n vr : Int) (s : Sys)
    (hs : Safe s) (hsz : main_sizes n vr) :
    SafeRes (generate_and_run env binary name n vr s) := by
  unfold generate_and_run
  refine SafeRes.bind (generate_test_safe env name n vr s hs hsz) ?_
  intro _ s1 h1
  have hs1 : Safe s1 := by
    have := generate_test_safe env name n vr s hs hsz
    rw [h1] at this
    exact this
  rw [run_standard_solution_eq]
  simp only [Res.bind]
  have hs2 : Safe ({ (s1.emit (.system ("./" ++ binary ++ " < " ++ (name ++ ".in") ++ " > "
      ++ (name ++ ".out")))) with spawned := s1.spawned + 1 } : Sys) :=
    (hs1.emit (.system _) (fun _ _ _ h => by cases h)).congr rfl rfl
  split
  · exact hs2.emit _ (fun _ _ _ h => by cases h)
  · exact hs2.emit _ (fun _ _ _ h => by cases h)

theorem subtask_loop_safe (env : Env) (binary : String) :
    ∀ (l : List (String × Int × Int)) (s : Sys), Safe s →
      (∀ t ∈ l, main_sizes t.2.1 t.2.2) → SafeRes (subtask_loop env binary l s) := by
  intro l
  induction l with
  | nil => intro s hs _; exact hs
  | cons t l ih =>
    intro s hs h
    obtain ⟨name, n, vr⟩ := t
    rw [subtask_loop]
    have hg := generate_and_run_safe env binary name n vr s hs
      (h (name, n, vr) (List.mem_cons_self _ _))
    refine SafeRes.bind hg ?_
    intro _ s1 h1
    rw [h1] at hg
    exact ih s1 hg (fun t ht => h t (List.mem_cons_of_mem _ ht))

theorem case_loop_safe (env : Env) (binary : String) :
    ∀ (k i : Nat) (s : Sys), Safe s → SafeRes (case_loop env binary k i s) := by
  intro k
  induction k with
  | zero => intro i s hs; exact hs
  | succ k ih =>
    intro i s hs
    obtain ⟨n, hn, hn1, hn2⟩ := random_from_one env 1000 s (by decide) (by decide)
    obtain ⟨vr, hvr, hvr1, hvr2⟩ := random_from_one env 1000000 (s.after_random 1 1000)
      (by decide) (by decide)
    rw [case_loop]
    simp only [hn, hvr, Res.bind]
    have hs2 : Safe ((s.after_random 1 1000).after_random 1 1000000) :=
      (hs.after_random 1 1000 (Or.inr (Or.inl rfl))).after_random 1 1000000
        (Or.inr (Or.inr (Or.inl rfl)))
    have hg := generate_and_run_safe env binary ("test_cases/test_case_" ++ toString i) n vr _
      hs2 ⟨hn1, by omega, hvr1, by omega⟩
    refine SafeRes.bind hg ?_
    intro _ s1 h1
    rw [h1] at hg
    exact ih (i + 1) s1 hg

theorem main_safe (env : Env) : SafeRes (main env Sys.init) := by
  have h0 : Safe Sys.init := ⟨by simp [Sys.init], by simp [Sys.init]⟩
  unfold main system
  simp only [Res.bind]
  have hs1 : Safe ({ ((Sys.init.emit (.cout "🔧 Compiling standard solution...\n")).emit
      (.system ("g++ -O2 -std=c++17 " ++ "gpt4o.cpp" ++ " -o " ++ "standard_solution")))
      with spawned := (Sys.init.emit
        (.cout "🔧 Compiling standard solution...\n")).spawned + 1 } : Sys) :=
    ((h0.emit _ (fun _ _ _ h => by cases h)).emit _ (fun _ _ _ h => by cases h)).congr rfl rfl
  split
  · exact hs1.emit _ (fun _ _ _ h => by cases h)
  · have hl := subtask_loop_safe env "standard_solution" subtasks _
      (hs1.emit (.cout "✅ Compilation complete.\n") (fun _ _ _ h => by cases h))
      (by
        intro t ht
        simp only [subtasks, List.mem_cons, List.mem_singleton, List.mem_nil_iff,
          or_false] at ht
        rcases ht with h | h | h | h | h | h | h <;> rw [h] <;>
          exact ⟨by decide, by decide, by decide, by decide⟩)
    refine SafeRes.bind hl ?_
    intro _ s2 h2
    rw [h2] at hl
    have hc := case_loop_safe env "standard_solution" 100 0 _
      (Safe.emit hl (.create_directory "test_cases") (fun _ _ _ h => by cases h))
    refine SafeRes.bind hc ?_
    intro _ s3 h3
    rw [h3] at hc
    exact Safe.emit hc _ (fun _ _ _ h => by cases h)

/-- C10: in every run of `main` (whatever the raw outputs, the statuses of the commands
and the files that open), no call of `random` divides by zero and the index of the
correction step is inside the vector (the run never ends in undefined behaviour);
`generate_test` is only called with `1 ≤ n ≤ 100000` and `1 ≤ value_range ≤ 10^9`; and
every call `random(l, r)` is `random(0, 1)`, `random(1, 1000)`, `random(1, 1000000)`,
`random(-value_range, value_range)` or `random(0, n - 1)` for such sizes, so that
`1 ≤ r - l + 1 ≤ 2 * 10^9 + 1 ≤ INT_MAX`: no `int` overflows. -/
theorem main_random_safe (env : Env) :
    (∀ s', main env Sys.init ≠ .crashed s') ∧
    (∀ f n vr, Event.call_generate_test f n vr ∈ (main env Sys.init).sys.trace →
      1 ≤ n ∧ n ≤ 100000 ∧ 1 ≤ vr ∧ vr ≤ 1000000000) ∧
    (∀ c ∈ (main env Sys.init).sys.calls, main_call c ∧
      INT_MIN ≤ c.1 ∧ c.2 ≤ INT_MAX ∧ 1 ≤ c.2 - c.1 + 1 ∧ c.2 - c.1 + 1 ≤ 2000000001 ∧
      c.2 - c.1 + 1 ≤ INT_MAX) := by
  have h := main_safe env
  cases hm : main env Sys.init with
  | ok a s =>
    rw [hm] at h
    refine ⟨fun _ e => (by cases e), h.2, fun c hc => ?_⟩
    have hs := main_call_safe (h.1 c hc)
    exact ⟨h.1 c hc, hs.1, hs.2.1, hs.2.2.2.1, hs.2.2.2.2.2, hs.2.2.2.2.1⟩
  | exited code s =>
    rw [hm] at h
    refine ⟨fun _ e => (by cases e), h.2, fun c hc => ?_⟩
    have hs := main_call_safe (h.1 c hc)
    exact ⟨h.1 c hc, hs.1, hs.2.1, hs.2.2.2.1, hs.2.2.2.2.2, hs.2.2.2.2.1⟩
  | crashed s =>
    rw [hm] at h
    exact absurd h (by simp [SafeRes])

end CPGen
